import Mathlib

/-!
Verification of the roster reconciliation and mark aggregation logic of
`check_projects.py` (lisds/project-scripts).

The Python module is shallowly embedded below.  Students and projects are
read from a YAML configuration; we model the class list (`get_class_list`)
as a list of `Student` records and the `projects` mapping as an ordered
association list of project name to `PConfig` (a Python `dict` preserves
insertion order and has unique keys).  Numeric scores are modelled as
rationals.  The per-project mark artifacts read from disk by
`get_proj_marks` (an external collaborator excluded by the spec) are
modelled as an oracle `String → Option (List (String × ℚ))` giving, per
project name, the dictionary parsed from the notebook, or `none` when no
marks cell was found.
-/

set_option autoImplicit false

namespace CheckProjects

/-- One row of the class list returned by `get_class_list`: the student id
(the `student_id_col` value, which is the data frame index) and the `UGPG`
cohort type column.  Other columns are carried through unchanged and play
no role in the verified logic. -/
structure Student where
  id : String
  ugpg : String
deriving DecidableEq

/-- The per-project configuration: `members` is the `members` mapping of
the YAML file (member string → contribution weight, in insertion order)
and `presentation` is the project's presentation score. -/
structure PConfig where
  members : List (String × ℚ)
  presentation : ℚ
deriving DecidableEq

/-- The course configuration: the `projects` mapping (name → `PConfig`,
in insertion order, names unique) and the `round_final` flag. -/
structure Config where
  projects : List (String × PConfig)
  roundFinal : Bool
deriving DecidableEq

/-- `m.split('@')[0]`: the prefix of `m` before the first `'@'`
(the whole string when there is no `'@'`). -/
def login (m : String) : String :=
  String.mk (m.data.takeWhile (fun c => c ≠ '@'))

/-- `member_logins(pconfig)`: the set of member strings truncated at the
first `'@'` (a Python `set`). -/
def member_logins (pc : PConfig) : Finset String :=
  (pc.members.map (fun mc => login mc.1)).toFinset

/-- `set(class_list.index)`: the set of known student ids. -/
def knownOf (roster : List Student) : Finset String :=
  (roster.map Student.id).toFinset

/-- The two `ValueError`s `check_config` can raise.  The message data
(project name, the set of unknown ids) is carried structurally. -/
inductive CheckError where
  | unknownStudents (project : String) (ids : Finset String)
  | overlap (project : String)
deriving DecidableEq

/-- The `for name, pconfig in config.get('projects', {}).items()` loop of
`check_config`, threading the `all_members` accumulator.  Per project:
compute the member logins, raise on unknown members, raise on overlap with
previously seen members, else accumulate. -/
def checkLoop (known : Finset String) :
    Finset String → List (String × PConfig) → Except CheckError (Finset String)
  | allMembers, [] => .ok allMembers
  | allMembers, (name, pc) :: rest =>
    let members := member_logins pc
    let unknown := members \ known
    if unknown.card ≠ 0 then
      .error (CheckError.unknownStudents name unknown)
    else if (allMembers ∩ members).card ≠ 0 then
      .error (CheckError.overlap name)
    else
      checkLoop known (allMembers ∪ members) rest

/-- The observable state of a `check_config` run: the configuration and
class list as they stand after the call, what was printed, and which
files were written (file name, set of ids written to it). -/
structure CheckRunState where
  config : Config
  class_list : List Student
  printed : List String
  printed_tables : List (Finset String)
  written_files : List (String × Finset String)
deriving DecidableEq

/-- `check_config(config, write_missing)`: run the validation loop; on
success compute `missing = known_students - all_members`, print the
missing-student table and (when `write_missing`) write it to
`missing.csv`.  Returns the final state together with the result (the
missing set on success, the raised error otherwise). -/
def check_config_run (cfg : Config) (roster : List Student)
    (write_missing : Bool) : CheckRunState × Except CheckError (Finset String) :=
  match checkLoop (knownOf roster) ∅ cfg.projects with
  | .error e => (⟨cfg, roster, [], [], []⟩, .error e)
  | .ok allMembers =>
    let missing := knownOf roster \ allMembers
    (⟨cfg, roster, ["Missing students"], [missing],
      if write_missing then [("missing.csv", missing)] else []⟩,
     .ok missing)

/-- The result component of `check_config` with the default
`write_missing=True`. -/
def check_config (cfg : Config) (roster : List Student) :
    Except CheckError (Finset String) :=
  (check_config_run cfg roster true).2

/-- The union of the member-login sets of a list of projects
(the final value of `all_members` on a successful run). -/
def unionMembers (ps : List (String × PConfig)) : Finset String :=
  ps.foldr (fun p acc => member_logins p.2 ∪ acc) ∅

theorem unionMembers_nil : unionMembers [] = ∅ := rfl

theorem unionMembers_cons (p : String × PConfig) (ps : List (String × PConfig)) :
    unionMembers (p :: ps) = member_logins p.2 ∪ unionMembers ps := rfl

theorem mem_unionMembers (x : String) (ps : List (String × PConfig)) :
    x ∈ unionMembers ps ↔ ∃ p ∈ ps, x ∈ member_logins p.2 := by
  induction ps with
  | nil => simp [unionMembers]
  | cons p ps ih => simp [unionMembers_cons, ih]

theorem unionMembers_append (l1 l2 : List (String × PConfig)) :
    unionMembers (l1 ++ l2) = unionMembers l1 ∪ unionMembers l2 := by
  induction l1 with
  | nil => simp [unionMembers_nil]
  | cons p l1 ih =>
    simp [unionMembers_cons, ih, Finset.union_assoc]

/-- Two projects have disjoint member-login sets (the negation is
"the two projects share a member"). -/
abbrev disjointLogins (a b : String × PConfig) : Prop :=
  member_logins a.2 ∩ member_logins b.2 = ∅

/-- Processing a prefix of projects all of whose member logins are known
and which are pairwise disjoint (and disjoint from the accumulator)
succeeds and just accumulates their member logins. -/
theorem checkLoop_append_ok (known : Finset String) :
    ∀ (pre : List (String × PConfig)) (acc : Finset String),
    (∀ p ∈ pre, member_logins p.2 ⊆ known) →
    List.Pairwise disjointLogins pre →
    (∀ p ∈ pre, acc ∩ member_logins p.2 = ∅) →
    ∀ rest, checkLoop known acc (pre ++ rest) =
      checkLoop known (acc ∪ unionMembers pre) rest := by
  intro pre
  induction pre with
  | nil => intro acc _ _ _ rest; simp [unionMembers_nil]
  | cons hd tl ih =>
    intro acc h1 h2 h3 rest
    have hu : member_logins hd.2 \ known = ∅ :=
      Finset.sdiff_eq_empty_iff_subset.mpr (h1 hd (List.mem_cons_self hd tl))
    have hov : acc ∩ member_logins hd.2 = ∅ := h3 hd (List.mem_cons_self hd tl)
    have step : checkLoop known acc ((hd :: tl) ++ rest) =
        checkLoop known (acc ∪ member_logins hd.2) (tl ++ rest) := by
      obtain ⟨name, pc⟩ := hd
      simp only [List.cons_append, checkLoop] at hu hov ⊢
      rw [hu, hov]
      simp
    rw [step, ih (acc ∪ member_logins hd.2)
      (fun p hp => h1 p (List.mem_cons_of_mem hd hp))
      (List.Pairwise.of_cons h2)
      (fun p hp => by
        rw [Finset.union_inter_distrib_right,
          h3 p (List.mem_cons_of_mem hd hp),
          (List.pairwise_cons.mp h2).1 p hp]
        simp)
      rest, unionMembers_cons, Finset.union_assoc]

/-- C2: with every member login known and pairwise-disjoint member sets,
`check_config` succeeds; the reported missing set is the known ids minus
the union of all member logins, and it is written to `missing.csv`,
not raised as an error. -/
theorem check_config_ok_missing (cfg : Config) (roster : List Student)
    (hknown : ∀ p ∈ cfg.projects, member_logins p.2 ⊆ knownOf roster)
    (hdisj : List.Pairwise disjointLogins cfg.projects) :
    check_config cfg roster =
      .ok (knownOf roster \ unionMembers cfg.projects) ∧
    (check_config_run cfg roster true).1.written_files =
      [("missing.csv", knownOf roster \ unionMembers cfg.projects)] := by
  have h := checkLoop_append_ok (knownOf roster) cfg.projects ∅ hknown hdisj
    (fun p _ => by simp) []
  rw [List.append_nil] at h
  have h2 : checkLoop (knownOf roster) ∅ cfg.projects =
      .ok (unionMembers cfg.projects) := by
    rw [h]; simp [checkLoop]
  constructor
  · unfold check_config check_config_run
    rw [h2]
  · unfold check_config_run
    rw [h2]
    simp

/-- C2 witness: a concrete two-project configuration over a three-student
roster; `carol` is reported missing. -/
theorem check_config_ok_missing_witness :
    check_config ⟨[("p1", ⟨[("alice", 1)], 80⟩), ("p2", ⟨[("bob", 2)], 60⟩)], false⟩
        [⟨"alice", "UG"⟩, ⟨"bob", "UG"⟩, ⟨"carol", "PGT"⟩] =
      .ok (knownOf [⟨"alice", "UG"⟩, ⟨"bob", "UG"⟩, ⟨"carol", "PGT"⟩] \
        unionMembers [("p1", ⟨[("alice", 1)], 80⟩), ("p2", ⟨[("bob", 2)], 60⟩)]) ∧
    (check_config_run ⟨[("p1", ⟨[("alice", 1)], 80⟩), ("p2", ⟨[("bob", 2)], 60⟩)], false⟩
        [⟨"alice", "UG"⟩, ⟨"bob", "UG"⟩, ⟨"carol", "PGT"⟩] true).1.written_files =
      [("missing.csv", knownOf [⟨"alice", "UG"⟩, ⟨"bob", "UG"⟩, ⟨"carol", "PGT"⟩] \
        unionMembers [("p1", ⟨[("alice", 1)], 80⟩), ("p2", ⟨[("bob", 2)], 60⟩)])] :=
  check_config_ok_missing
    ⟨[("p1", ⟨[("alice", 1)], 80⟩), ("p2", ⟨[("bob", 2)], 60⟩)], false⟩
    [⟨"alice", "UG"⟩, ⟨"bob", "UG"⟩, ⟨"carol", "PGT"⟩]
    (by decide) (by decide)

/-- C5 (amended): if the first project (in configuration order) containing
member logins outside the roster is preceded only by projects with known,
pairwise-disjoint member sets, `check_config` raises the
unknown-students error naming that project and carrying exactly its
offending (unknown) login set, whatever projects follow. -/
theorem check_config_unknown_first (cfg : Config) (roster : List Student)
    (pre : List (String × PConfig)) (name : String) (pc : PConfig)
    (post : List (String × PConfig))
    (hsplit : cfg.projects = pre ++ (name, pc) :: post)
    (hpre : ∀ p ∈ pre, member_logins p.2 ⊆ knownOf roster)
    (hpredisj : List.Pairwise disjointLogins pre)
    (hunk : member_logins pc \ knownOf roster ≠ ∅) :
    check_config cfg roster =
      .error (CheckError.unknownStudents name
        (member_logins pc \ knownOf roster)) := by
  have hcard : (member_logins pc \ knownOf roster).card ≠ 0 := by
    rw [Finset.card_ne_zero, Finset.nonempty_iff_ne_empty]
    exact hunk
  unfold check_config check_config_run
  rw [hsplit, checkLoop_append_ok (knownOf roster) pre ∅ hpre hpredisj
    (fun p _ => by simp) ((name, pc) :: post)]
  simp only [checkLoop]
  rw [if_pos hcard]

/-- C5 counterexample: `p3` references the unknown student `zak`, but
because the earlier projects `p1` and `p2` overlap, `check_config` raises
the overlap error for `p2` instead — the unknown-students error naming
`p3` and `zak` is never produced, contradicting the claim as stated. -/
theorem check_config_unknown_counterexample :
    ("p3", (⟨[("zak", 3)], 50⟩ : PConfig)) ∈
      (⟨[("p1", ⟨[("alice", 1)], 80⟩), ("p2", ⟨[("alice", 2)], 60⟩),
        ("p3", ⟨[("zak", 3)], 50⟩)], false⟩ : Config).projects ∧
    member_logins ⟨[("zak", 3)], 50⟩ \ knownOf [⟨"alice", "UG"⟩] =
      ({"zak"} : Finset String) ∧
    check_config
      ⟨[("p1", ⟨[("alice", 1)], 80⟩), ("p2", ⟨[("alice", 2)], 60⟩),
        ("p3", ⟨[("zak", 3)], 50⟩)], false⟩
      [⟨"alice", "UG"⟩] = .error (CheckError.overlap "p2") := by
  refine ⟨by decide, by decide, ?_⟩
  rfl

/-- C5 witness: with no earlier violation, the project `p2` with unknown
member `zak` is named together with its unknown login set. -/
theorem check_config_unknown_first_witness :
    check_config ⟨[("p1", ⟨[("alice", 1)], 80⟩), ("p2", ⟨[("zak", 3)], 50⟩)], false⟩
        [⟨"alice", "UG"⟩] =
      .error (CheckError.unknownStudents "p2"
        (member_logins ⟨[("zak", 3)], 50⟩ \ knownOf [⟨"alice", "UG"⟩])) :=
  check_config_unknown_first
    ⟨[("p1", ⟨[("alice", 1)], 80⟩), ("p2", ⟨[("zak", 3)], 50⟩)], false⟩
    [⟨"alice", "UG"⟩]
    [("p1", ⟨[("alice", 1)], 80⟩)] "p2" ⟨[("zak", 3)], 50⟩ []
    (by decide) (by decide) (by decide) (by decide)

/-- If the projects processed so far (`done`) were pairwise disjoint but
the whole list is not, the loop stops at the first project whose members
meet the accumulated set, raising the overlap error that names it; that
project is the later one of a sharing pair. -/
theorem checkLoop_overlap_aux :
    ∀ (rest done : List (String × PConfig)) (known : Finset String),
    (∀ p ∈ done ++ rest, member_logins p.2 ⊆ known) →
    List.Pairwise disjointLogins done →
    ¬ List.Pairwise disjointLogins (done ++ rest) →
    ∃ l1 a l2 b l3, done ++ rest = l1 ++ a :: (l2 ++ b :: l3) ∧
      ¬ disjointLogins a b ∧ b ∈ rest ∧
      checkLoop known (unionMembers done) rest =
        .error (CheckError.overlap b.1) := by
  intro rest
  induction rest with
  | nil =>
    intro done known _ hdone hnot
    rw [List.append_nil] at hnot
    exact absurd hdone hnot
  | cons hd tl ih =>
    intro done known h1 hdone hnot
    have hu : member_logins hd.2 \ known = ∅ :=
      Finset.sdiff_eq_empty_iff_subset.mpr
        (h1 hd (by simp))
    by_cases hov : unionMembers done ∩ member_logins hd.2 = ∅
    · -- no overlap at `hd`: recurse with `hd` appended to `done`
      have hdisjhd : ∀ a ∈ done, disjointLogins a hd := by
        intro a ha
        refine Finset.eq_empty_iff_forall_not_mem.mpr ?_
        intro x hx
        rw [Finset.mem_inter] at hx
        have hxu : x ∈ unionMembers done ∩ member_logins hd.2 :=
          Finset.mem_inter.mpr
            ⟨(mem_unionMembers x done).mpr ⟨a, ha, hx.1⟩, hx.2⟩
        rw [hov] at hxu
        exact absurd hxu (Finset.not_mem_empty x)
      have hre : (done ++ [hd]) ++ tl = done ++ hd :: tl := by
        rw [List.append_assoc, List.singleton_append]
      obtain ⟨l1, a, l2, b, l3, hsplit, hshare, hbmem, hloop⟩ :=
        ih (done ++ [hd]) known
          (by rw [hre]; exact h1)
          ((List.pairwise_append).mpr
            ⟨hdone, List.pairwise_singleton _ hd,
             fun a ha b hb => by
               rw [List.mem_singleton] at hb
               rw [hb]; exact hdisjhd a ha⟩)
          (by rw [hre]; exact hnot)
      refine ⟨l1, a, l2, b, l3, by rw [← hre]; exact hsplit, hshare,
        List.mem_cons_of_mem hd hbmem, ?_⟩
      have hstep : checkLoop known (unionMembers done) (hd :: tl) =
          checkLoop known (unionMembers done ∪ member_logins hd.2) tl := by
        obtain ⟨name, pc⟩ := hd
        simp only [checkLoop] at hu hov ⊢
        rw [hu, hov]
        simp
      rw [unionMembers_append, unionMembers_cons, unionMembers_nil,
        Finset.union_empty] at hloop
      rw [hstep]
      exact hloop
    · -- the members of `hd` meet the accumulated set: the error names `hd`
      obtain ⟨x, hx⟩ := Finset.nonempty_iff_ne_empty.mpr hov
      rw [Finset.mem_inter] at hx
      obtain ⟨a, ha, hxa⟩ := (mem_unionMembers x done).mp hx.1
      obtain ⟨d1, d2, hdone2⟩ := List.append_of_mem ha
      have hcard : (unionMembers done ∩ member_logins hd.2).card ≠ 0 := by
        rw [Finset.card_ne_zero, Finset.nonempty_iff_ne_empty]
        exact hov
      refine ⟨d1, a, d2, hd, tl, ?_, ?_, List.mem_cons_self hd tl, ?_⟩
      · rw [hdone2, List.append_assoc, List.cons_append]
      · intro hcontra
        have hc : member_logins a.2 ∩ member_logins hd.2 = ∅ := hcontra
        exact absurd (Finset.mem_inter.mpr ⟨hxa, hx.2⟩)
          (by rw [Finset.eq_empty_iff_forall_not_mem] at hc
              exact hc x)
      · obtain ⟨name, pc⟩ := hd
        simp only [checkLoop] at hu hcard ⊢
        rw [hu]
        simp [hcard]

/-- C6: when all member logins are known and two distinct projects share a
member, `check_config` raises the overlap error, and the project it names
is the second (in configuration order) of a sharing pair. -/
theorem check_config_overlap_second (cfg : Config) (roster : List Student)
    (hknown : ∀ p ∈ cfg.projects, member_logins p.2 ⊆ knownOf roster)
    (m1 m2 m3 : List (String × PConfig)) (a b : String × PConfig)
    (hsplit : cfg.projects = m1 ++ a :: (m2 ++ b :: m3))
    (hshare : ¬ disjointLogins a b) :
    ∃ l1 x l2 y l3, cfg.projects = l1 ++ x :: (l2 ++ y :: l3) ∧
      ¬ disjointLogins x y ∧
      check_config cfg roster = .error (CheckError.overlap y.1) := by
  have hnot : ¬ List.Pairwise disjointLogins cfg.projects := by
    intro hpw
    rw [hsplit] at hpw
    have h2 := ((List.pairwise_append).mp hpw).2.1
    rw [List.pairwise_cons] at h2
    exact hshare (h2.1 b (by simp))
  obtain ⟨l1, x, l2, y, l3, hsp, hsh, _, hloop⟩ :=
    checkLoop_overlap_aux cfg.projects [] (knownOf roster)
      (by simpa using hknown) (List.Pairwise.nil) (by simpa using hnot)
  rw [List.nil_append] at hsp
  refine ⟨l1, x, l2, y, l3, hsp, hsh, ?_⟩
  unfold check_config check_config_run
  rw [unionMembers_nil] at hloop
  rw [hloop]

/-- C6 witness: `p1` and `p2` both contain `alice`; `check_config` raises
the overlap error naming `p2`, the second project. -/
theorem check_config_overlap_second_witness :
    ∃ l1 x l2 y l3,
      (⟨[("p1", ⟨[("alice", 1)], 80⟩), ("p2", ⟨[("alice", 2)], 60⟩)], false⟩ :
        Config).projects = l1 ++ x :: (l2 ++ y :: l3) ∧
      ¬ disjointLogins x y ∧
      check_config ⟨[("p1", ⟨[("alice", 1)], 80⟩), ("p2", ⟨[("alice", 2)], 60⟩)], false⟩
        [⟨"alice", "UG"⟩, ⟨"bob", "UG"⟩] = .error (CheckError.overlap y.1) :=
  check_config_overlap_second
    ⟨[("p1", ⟨[("alice", 1)], 80⟩), ("p2", ⟨[("alice", 2)], 60⟩)], false⟩
    [⟨"alice", "UG"⟩, ⟨"bob", "UG"⟩]
    (by decide)
    [] [] [] ("p1", ⟨[("alice", 1)], 80⟩) ("p2", ⟨[("alice", 2)], 60⟩)
    (by decide) (by decide)

/-- C9: `check_config` has no side effect beyond the missing-student
report: after the run (for either value of `write_missing`, and whether
it succeeds or raises) the configuration and the class list are the ones
passed in — no project entry, member mapping or roster row was added,
removed or modified. -/
theorem check_config_frame (cfg : Config) (roster : List Student)
    (write_missing : Bool) :
    (check_config_run cfg roster write_missing).1.config = cfg ∧
    (check_config_run cfg roster write_missing).1.class_list = roster := by
  unfold check_config_run
  cases checkLoop (knownOf roster) ∅ cfg.projects with
  | error e => exact ⟨rfl, rfl⟩
  | ok allMembers => exact ⟨rfl, rfl⟩

/-! ## Mark aggregation (`get_marks`) -/

/-- The fixed mark category tuple `MARK_CATEGORIES`. -/
def MARK_CATEGORIES : List String :=
  ["Questions", "Analysis", "Results", "Readability", "Writing",
   "Reproducibility"]

/-- One row of the class list as mutated by `get_marks`: the index label
and `UGPG` column of the loaded class list plus the columns the `marks`
dictionary writes (`Project name`, `Presentation`, the category columns,
`Contribution`) and the final aggregate column (`marks_col`).  Cells never
written stay `none` (pandas `NaN`); a row added by label-enlargement has
`ugpg = none`. -/
structure Row where
  id : String
  ugpg : Option String
  projectName : Option String
  presentation : Option ℚ
  catMarks : List (String × ℚ)
  contribution : Option ℚ
  aggregate : Option ℚ
deriving DecidableEq

/-- A freshly loaded class-list row: only identity and cohort type. -/
def initRow (s : Student) : Row :=
  ⟨s.id, some s.ugpg, none, none, [], none, none⟩

/-- The effect of `class_list.loc[member, list(marks)] = marks` on one
row: set project name, presentation, the category marks and that member's
contribution; the aggregate column is untouched here. -/
def setMarks (name : String) (pres : ℚ) (pm : List (String × ℚ))
    (contrib : ℚ) (r : Row) : Row :=
  ⟨r.id, r.ugpg, some name, some pres, pm, some contrib, r.aggregate⟩

/-- `class_list.loc[label, list(marks)] = marks`: update every row whose
index equals `label`; a label absent from the index enlarges the table
with a fresh row. -/
def writeRow (t : List Row) (label : String) (name : String) (pres : ℚ)
    (pm : List (String × ℚ)) (contrib : ℚ) : List Row :=
  if t.any (fun r => r.id == label) then
    t.map (fun r => if r.id = label then setMarks name pres pm contrib r else r)
  else
    t ++ [setMarks name pres pm contrib ⟨label, none, none, none, [], none, none⟩]

/-- The `for member, contrib_score in pconfig['members'].items()` loop:
each member's row receives the shared project marks and that member's own
contribution weight.  Note the write key is the full, untruncated member
string. -/
def writeProject (t : List Row) (name : String) (pc : PConfig)
    (pm : List (String × ℚ)) : List Row :=
  pc.members.foldl
    (fun acc mc => writeRow acc mc.1 name pc.presentation pm mc.2) t

/-- The two fatal failures of `get_marks`: the `RuntimeError` for a
missing mark artifact and the `assert` on a wrong category set. -/
inductive MarksError where
  | missingMarks (project : String)
  | badCategories (project : String)
deriving DecidableEq

/-- The project loop of `get_marks`.  Per project, in configuration
order: look the mark artifact up; if absent, raise unless
`allow_missing`, in which case record the skip (the printed message) and
continue; if present, assert its key set equals `MARK_CATEGORIES` and
write every member's row. -/
def getMarksLoop (artifacts : String → Option (List (String × ℚ)))
    (allow_missing : Bool) :
    List Row → List String → List (String × PConfig) →
    Except MarksError (List Row × List String)
  | t, skipped, [] => .ok (t, skipped)
  | t, skipped, (name, pc) :: rest =>
    match artifacts name with
    | none =>
      if allow_missing then
        getMarksLoop artifacts allow_missing t (skipped ++ [name]) rest
      else
        .error (MarksError.missingMarks name)
    | some pm =>
      if (pm.map Prod.fst).toFinset = MARK_CATEGORIES.toFinset then
        getMarksLoop artifacts allow_missing (writeProject t name pc pm)
          skipped rest
      else
        .error (MarksError.badCategories name)

/-- Python dictionary / data-frame column access for a category name. -/
def lookupQ (k : String) : List (String × ℚ) → Option ℚ
  | [] => none
  | kv :: rest => if kv.1 = k then some kv.2 else lookupQ k rest

/-- pandas `Series.round()`: round half to even. -/
def roundHalfEven (q : ℚ) : ℤ :=
  if q - ⌊q⌋ < 1/2 then ⌊q⌋
  else if 1/2 < q - ⌊q⌋ then ⌊q⌋ + 1
  else if 2 ∣ ⌊q⌋ then ⌊q⌋ else ⌊q⌋ + 1

/-- `class_list.loc[:, ('Presentation',) + MARK_CATEGORIES].mean(axis=1)`
for one row: the mean of the non-missing cells among Presentation and the
six category columns (`NaN`, i.e. `none`, when all are missing). -/
def rowMean (r : Row) : Option ℚ :=
  let vals := r.presentation.toList ++
    MARK_CATEGORIES.filterMap (fun c => lookupQ c r.catMarks)
  if vals.length = 0 then none else some (vals.sum / (vals.length : ℚ))

/-- Apply the optional `round_final` rounding to an aggregate value. -/
def finalScale (roundF : Bool) (q : ℚ) : ℚ :=
  if roundF then ((roundHalfEven q : ℤ) : ℚ) else q

/-- Write the final aggregate column into a row, rounding it when the
`round_final` option is set. -/
def finishRow (roundF : Bool) (r : Row) : Row :=
  ⟨r.id, r.ugpg, r.projectName, r.presentation, r.catMarks, r.contribution,
    (rowMean r).map (finalScale roundF)⟩

/-- `get_marks(config, student_type, allow_missing)`: load the class
list, run the project loop, compute the aggregate column (rounded when
configured), and filter to the requested cohort type when one is given.
Returns the final table together with the skipped-project reports. -/
def get_marks (cfg : Config) (roster : List Student)
    (artifacts : String → Option (List (String × ℚ)))
    (student_type : Option String) (allow_missing : Bool) :
    Except MarksError (List Row × List String) :=
  match getMarksLoop artifacts allow_missing (roster.map initRow) []
      cfg.projects with
  | .error e => .error e
  | .ok (t, skipped) =>
    let t2 := (t.map (finishRow cfg.roundFinal))
    match student_type with
    | none => .ok (t2, skipped)
    | some ty => .ok (t2.filter (fun r => r.ugpg == some ty), skipped)

/-- A project's artifact is found and has exactly the fixed category
set (so the loop processes it and moves on). -/
def foundGoodB (artifacts : String → Option (List (String × ℚ)))
    (p : String × PConfig) : Bool :=
  match artifacts p.1 with
  | none => false
  | some pm => decide ((pm.map Prod.fst).toFinset = MARK_CATEGORIES.toFinset)

/-- Observation helper: the row labels and skip reports of a successful
`get_marks` result. -/
def okIds (res : Except MarksError (List Row × List String)) :
    Option (List String × List String) :=
  match res with
  | .ok ts => some (ts.1.map Row.id, ts.2)
  | .error _ => none

theorem lookupQ_isSome_of_mem (k : String) :
    ∀ l : List (String × ℚ), k ∈ l.map Prod.fst → (lookupQ k l).isSome := by
  intro l
  induction l with
  | nil => intro h; simp at h
  | cons kv rest ih =>
    intro h
    simp only [lookupQ]
    by_cases hk : kv.1 = k
    · rw [if_pos hk]; rfl
    · rw [if_neg hk]
      refine ih ?_
      rcases List.mem_map.mp h with ⟨x, hx, hxk⟩
      rcases List.mem_cons.mp hx with h1 | h1
      · exact absurd (h1 ▸ hxk) hk
      · exact List.mem_map.mpr ⟨x, h1, hxk⟩

theorem length_filterMap_all_isSome (f : String → Option ℚ) :
    ∀ l : List String, (∀ a ∈ l, (f a).isSome) →
      (l.filterMap f).length = l.length := by
  intro l
  induction l with
  | nil => intro _; rfl
  | cons a rest ih =>
    intro h
    have ha := h a (List.mem_cons_self a rest)
    rcases Option.isSome_iff_exists.mp ha with ⟨v, hv⟩
    rw [List.filterMap_cons, hv, List.length_cons, List.length_cons,
      ih (fun b hb => h b (List.mem_cons_of_mem a hb))]

theorem rowMean_finishRow (b : Bool) (r : Row) :
    rowMean (finishRow b r) = rowMean r := rfl

/-- C1: in any table successfully returned by `get_marks`, a student row
holding a presentation score and a full category record (i.e. the row of
a member of a project whose marks were read) has as final aggregate the
unweighted arithmetic mean of the presentation score and the six fixed
category scores — seven values, with the stored contribution weight not
among them — rounded exactly when `round_final` is configured. -/
theorem get_marks_aggregate_mean (cfg : Config) (roster : List Student)
    (artifacts : String → Option (List (String × ℚ)))
    (student_type : Option String) (allow_missing : Bool)
    (t : List Row) (skipped : List String)
    (hok : get_marks cfg roster artifacts student_type allow_missing =
      .ok (t, skipped))
    (r : Row) (hr : r ∈ t) (p : ℚ) (hp : r.presentation = some p)
    (hkeys : (r.catMarks.map Prod.fst).toFinset = MARK_CATEGORIES.toFinset) :
    r.aggregate = some (finalScale cfg.roundFinal
      ((p + (MARK_CATEGORIES.filterMap (fun c => lookupQ c r.catMarks)).sum)
        / 7)) := by
  have hsome : ∀ c ∈ MARK_CATEGORIES, (lookupQ c r.catMarks).isSome := by
    intro c hc
    refine lookupQ_isSome_of_mem c r.catMarks ?_
    have : c ∈ (r.catMarks.map Prod.fst).toFinset := by
      rw [hkeys, List.mem_toFinset]; exact hc
    rwa [List.mem_toFinset] at this
  -- extract the pre-aggregation table from the successful run
  unfold get_marks at hok
  rcases hloop : getMarksLoop artifacts allow_missing (roster.map initRow) []
      cfg.projects with e | ts
  · rw [hloop] at hok; exact absurd hok (by simp)
  · rw [hloop] at hok
    obtain ⟨t0, sk0⟩ := ts
    have hmem : r ∈ t0.map (finishRow cfg.roundFinal) := by
      cases student_type with
      | none =>
        simp only [Except.ok.injEq, Prod.mk.injEq] at hok
        rw [← hok.1] at hr
        exact hr
      | some ty =>
        simp only [Except.ok.injEq, Prod.mk.injEq] at hok
        rw [← hok.1] at hr
        exact (List.mem_filter.mp hr).1
    rcases List.mem_map.mp hmem with ⟨r0, _, hr0⟩
    have hagg : r.aggregate = (rowMean r).map (finalScale cfg.roundFinal) := by
      rw [← hr0, rowMean_finishRow]
      rfl
    rw [hagg]
    have hvals : r.presentation.toList ++
        MARK_CATEGORIES.filterMap (fun c => lookupQ c r.catMarks) =
        p :: MARK_CATEGORIES.filterMap (fun c => lookupQ c r.catMarks) := by
      rw [hp]; rfl
    have hlen : (MARK_CATEGORIES.filterMap
        (fun c => lookupQ c r.catMarks)).length = 6 :=
      length_filterMap_all_isSome (fun c => lookupQ c r.catMarks)
        MARK_CATEGORIES hsome
    unfold rowMean
    rw [hvals]
    simp only [List.length_cons, hlen, List.sum_cons]
    norm_num

/-- The spec's worked example artifact: every category scored 70. -/
def pmAll70 : List (String × ℚ) :=
  [("Questions", 70), ("Analysis", 70), ("Results", 70), ("Readability", 70),
   ("Writing", 70), ("Reproducibility", 70)]

/-- The spec's worked example: one project, one member with
contribution 5, presentation 80, rounding off. -/
def cfgC1 : Config := ⟨[("projA", ⟨[("alice", 5)], 80⟩)], false⟩

/-- The worked example with rounding enabled. -/
def cfgC1r : Config := ⟨[("projA", ⟨[("alice", 5)], 80⟩)], true⟩

def rosterC1 : List Student := [⟨"alice", "UG"⟩]

def artC1 : String → Option (List (String × ℚ)) :=
  fun n => if n = "projA" then some pmAll70 else none

/-- The row `get_marks` produces for alice in the worked example. -/
def rowC1 : Row :=
  ⟨"alice", some "UG", some "projA", some 80, pmAll70, some 5, some (500/7)⟩

/-- C1 witness: on the spec's example (Presentation 80, all categories
70, contribution 5) the aggregate is the 7-value mean 500/7 = 71.43...,
the contribution 5 is stored in the row but not in the mean, and with
rounding enabled the aggregate is 71. -/
theorem get_marks_aggregate_mean_witness :
    rowC1.aggregate = some (finalScale cfgC1.roundFinal
      ((80 + (MARK_CATEGORIES.filterMap
        (fun c => lookupQ c rowC1.catMarks)).sum) / 7)) ∧
    rowC1.aggregate = some (500/7) ∧
    rowC1.contribution = some 5 ∧
    get_marks cfgC1r rosterC1 artC1 none false =
      .ok ([⟨"alice", some "UG", some "projA", some 80, pmAll70, some 5,
        some 71⟩], []) := by
  refine ⟨?_, rfl, rfl, by with_unfolding_all rfl⟩
  exact get_marks_aggregate_mean cfgC1 rosterC1 artC1 none false
    [rowC1] [] (by with_unfolding_all rfl) rowC1
    (List.mem_singleton.mpr rfl) 80 rfl (by decide)

theorem getMarksLoop_skip_acc (artifacts : String → Option (List (String × ℚ)))
    (allow : Bool) :
    ∀ (ps : List (String × PConfig)) (t : List Row) (sk : List String),
    getMarksLoop artifacts allow t sk ps =
      Except.map (fun x => (x.1, sk ++ x.2))
        (getMarksLoop artifacts allow t [] ps) := by
  intro ps
  induction ps with
  | nil => intro t sk; simp [getMarksLoop, Except.map]
  | cons hd rest ih =>
    intro t sk
    obtain ⟨name, pc⟩ := hd
    rcases hart : artifacts name with _ | pm
    · cases allow with
      | false => simp [getMarksLoop, hart, Except.map]
      | true =>
        simp only [getMarksLoop, hart, if_true]
        rw [ih t (sk ++ [name]), ih t ([] ++ [name])]
        rcases getMarksLoop artifacts true t [] rest with e | x <;>
          simp [Except.map, List.append_assoc]
    · by_cases hkeys : (pm.map Prod.fst).toFinset = MARK_CATEGORIES.toFinset
      · simp only [getMarksLoop, hart]
        rw [if_pos hkeys, if_pos hkeys, ih (writeProject t name pc pm) sk]
      · simp only [getMarksLoop, hart]
        rw [if_neg hkeys, if_neg hkeys]
        simp [Except.map]

theorem getMarksLoop_foundGood_prefix
    (artifacts : String → Option (List (String × ℚ))) (allow : Bool) :
    ∀ (pre : List (String × PConfig)),
    (∀ p ∈ pre, foundGoodB artifacts p = true) →
    ∀ (t : List Row), ∃ t' : List Row,
      ∀ (sk : List String) (ps : List (String × PConfig)),
        getMarksLoop artifacts allow t sk (pre ++ ps) =
        getMarksLoop artifacts allow t' sk ps := by
  intro pre
  induction pre with
  | nil =>
    intro _ t
    exact ⟨t, fun sk ps => by rw [List.nil_append]⟩
  | cons hd rest ih =>
    intro h t
    obtain ⟨name, pc⟩ := hd
    have hg := h (name, pc) (List.mem_cons_self _ _)
    unfold foundGoodB at hg
    rcases hart : artifacts name with _ | pm
    · rw [hart] at hg; simp at hg
    · rw [hart] at hg
      simp only [decide_eq_true_eq] at hg
      obtain ⟨t', ht'⟩ := ih (fun p hp => h p (List.mem_cons_of_mem _ hp))
        (writeProject t name pc pm)
      refine ⟨t', fun sk ps => ?_⟩
      rw [List.cons_append]
      simp only [getMarksLoop]
      rw [hart]
      simp only [hg, if_true]
      exact ht' sk ps

/-- C7 (amended): for the first project in processing order whose mark
artifact is not found (all earlier projects' artifacts being found with
valid category sets): with the tolerate-missing flag off, `get_marks`
raises the missing-marks error naming that project, whatever follows it
(processing halts); with the flag on, the run is exactly the run without
that project except that the project is reported as skipped, i.e. the
condition is downgraded to a skip-and-report and processing continues. -/
theorem get_marks_missing_artifact (cfg : Config) (roster : List Student)
    (artifacts : String → Option (List (String × ℚ)))
    (pre post : List (String × PConfig)) (name : String) (pc : PConfig)
    (hsplit : cfg.projects = pre ++ (name, pc) :: post)
    (hart : artifacts name = none)
    (hpre : ∀ p ∈ pre, foundGoodB artifacts p = true)
    (student_type : Option String) :
    get_marks cfg roster artifacts student_type false =
      .error (MarksError.missingMarks name) ∧
    get_marks cfg roster artifacts student_type true =
      Except.map (fun x => (x.1, name :: x.2))
        (get_marks ⟨pre ++ post, cfg.roundFinal⟩ roster artifacts
          student_type true) := by
  constructor
  · obtain ⟨t', ht'⟩ := getMarksLoop_foundGood_prefix artifacts false pre hpre
      (roster.map initRow)
    unfold get_marks
    rw [hsplit, ht' [] ((name, pc) :: post)]
    simp [getMarksLoop, hart]
  · obtain ⟨t', ht'⟩ := getMarksLoop_foundGood_prefix artifacts true pre hpre
      (roster.map initRow)
    unfold get_marks
    rw [hsplit, ht' [] ((name, pc) :: post)]
    rw [show (Config.mk (pre ++ post) cfg.roundFinal).projects = pre ++ post
      from rfl]
    rw [ht' [] post]
    simp only [getMarksLoop, hart, if_true]
    rw [getMarksLoop_skip_acc artifacts true post t' ([] ++ [name])]
    rcases getMarksLoop artifacts true t' [] post with e | x
    · cases student_type <;> simp [Except.map]
    · obtain ⟨t0, sk0⟩ := x
      cases student_type <;> simp [Except.map]

/-- C7 counterexample: both `p1` and `p2` lack mark artifacts; with the
flag off, `get_marks` raises the missing-marks error naming `p1` only —
for `p2` (a project whose artifact is not found) no error naming it is
ever produced, contradicting the claim's universal statement. -/
theorem get_marks_missing_counterexample :
    (fun _ : String => (none : Option (List (String × ℚ)))) "p2" = none ∧
    ("p2", (⟨[("bob", 2)], 60⟩ : PConfig)) ∈
      (⟨[("p1", ⟨[("alice", 1)], 80⟩), ("p2", ⟨[("bob", 2)], 60⟩)], false⟩ :
        Config).projects ∧
    get_marks ⟨[("p1", ⟨[("alice", 1)], 80⟩), ("p2", ⟨[("bob", 2)], 60⟩)], false⟩
      [⟨"alice", "UG"⟩, ⟨"bob", "UG"⟩]
      (fun _ => none) none false = .error (MarksError.missingMarks "p1") := by
  refine ⟨rfl, by decide, by with_unfolding_all rfl⟩

def artC7 : String → Option (List (String × ℚ)) :=
  fun n => if n = "p2" then none else some pmAll70

/-- C7 witness: `p2` is the first (and only) project with a missing
artifact; flag off raises the error naming `p2`, flag on yields the run
without `p2` plus the skip report. -/
theorem get_marks_missing_artifact_witness :
    get_marks ⟨[("p1", ⟨[("alice", 1)], 80⟩), ("p2", ⟨[("bob", 2)], 60⟩),
        ("p3", ⟨[("carol", 3)], 70⟩)], false⟩
      [⟨"alice", "UG"⟩, ⟨"bob", "UG"⟩, ⟨"carol", "UG"⟩] artC7 none false =
      .error (MarksError.missingMarks "p2") ∧
    get_marks ⟨[("p1", ⟨[("alice", 1)], 80⟩), ("p2", ⟨[("bob", 2)], 60⟩),
        ("p3", ⟨[("carol", 3)], 70⟩)], false⟩
      [⟨"alice", "UG"⟩, ⟨"bob", "UG"⟩, ⟨"carol", "UG"⟩] artC7 none true =
      Except.map (fun x => (x.1, "p2" :: x.2))
        (get_marks ⟨[("p1", ⟨[("alice", 1)], 80⟩)] ++
            [("p3", ⟨[("carol", 3)], 70⟩)], false⟩
          [⟨"alice", "UG"⟩, ⟨"bob", "UG"⟩, ⟨"carol", "UG"⟩] artC7 none true) :=
  get_marks_missing_artifact
    ⟨[("p1", ⟨[("alice", 1)], 80⟩), ("p2", ⟨[("bob", 2)], 60⟩),
      ("p3", ⟨[("carol", 3)], 70⟩)], false⟩
    [⟨"alice", "UG"⟩, ⟨"bob", "UG"⟩, ⟨"carol", "UG"⟩] artC7
    [("p1", ⟨[("alice", 1)], 80⟩)] [("p3", ⟨[("carol", 3)], 70⟩)]
    "p2" ⟨[("bob", 2)], 60⟩ (by decide) rfl (by decide) none

/-- C4 (amended): for a project whose artifact is found with a category
set different from the fixed `MARK_CATEGORIES` set, provided every
earlier project's artifact is found with the correct category set,
`get_marks` fails with the assertion-style category error naming it,
regardless of the tolerate-missing flag and of anything that follows. -/
theorem get_marks_bad_category_set (cfg : Config) (roster : List Student)
    (artifacts : String → Option (List (String × ℚ)))
    (pre post : List (String × PConfig)) (name : String) (pc : PConfig)
    (pm : List (String × ℚ))
    (hsplit : cfg.projects = pre ++ (name, pc) :: post)
    (hart : artifacts name = some pm)
    (hbad : (pm.map Prod.fst).toFinset ≠ MARK_CATEGORIES.toFinset)
    (hpre : ∀ p ∈ pre, foundGoodB artifacts p = true)
    (student_type : Option String) (allow_missing : Bool) :
    get_marks cfg roster artifacts student_type allow_missing =
      .error (MarksError.badCategories name) := by
  obtain ⟨t', ht'⟩ := getMarksLoop_foundGood_prefix artifacts allow_missing
    pre hpre (roster.map initRow)
  unfold get_marks
  rw [hsplit, ht' [] ((name, pc) :: post)]
  simp [getMarksLoop, hart, hbad]

def artC4x : String → Option (List (String × ℚ)) :=
  fun n => if n = "p2" then some [("Questions", 50)] else none

/-- C4 counterexample: `p2`'s artifact is found with only one category —
a validation failure by the claim — yet with the tolerate-missing flag
off `get_marks` raises the missing-marks error for `p1` instead of any
assertion-style category error, so the claimed failure does not occur
regardless of the flag. -/
theorem get_marks_bad_category_counterexample :
    artC4x "p2" = some [("Questions", 50)] ∧
    (([("Questions", (50 : ℚ))].map Prod.fst).toFinset ≠
      MARK_CATEGORIES.toFinset) ∧
    get_marks ⟨[("p1", ⟨[("alice", 1)], 80⟩), ("p2", ⟨[("bob", 2)], 60⟩)], false⟩
      [⟨"alice", "UG"⟩, ⟨"bob", "UG"⟩] artC4x none false =
      .error (MarksError.missingMarks "p1") := by
  refine ⟨rfl, by decide, by with_unfolding_all rfl⟩

def artC4 : String → Option (List (String × ℚ)) :=
  fun n => if n = "p2" then some [("Questions", 50)] else some pmAll70

/-- C4 witness: with the earlier project's artifact found and valid, the
category mismatch on `p2` is fatal under both flag values. -/
theorem get_marks_bad_category_set_witness :
    get_marks ⟨[("p1", ⟨[("alice", 1)], 80⟩), ("p2", ⟨[("bob", 2)], 60⟩)], false⟩
      [⟨"alice", "UG"⟩, ⟨"bob", "UG"⟩] artC4 none false =
      .error (MarksError.badCategories "p2") ∧
    get_marks ⟨[("p1", ⟨[("alice", 1)], 80⟩), ("p2", ⟨[("bob", 2)], 60⟩)], false⟩
      [⟨"alice", "UG"⟩, ⟨"bob", "UG"⟩] artC4 none true =
      .error (MarksError.badCategories "p2") :=
  ⟨get_marks_bad_category_set
      ⟨[("p1", ⟨[("alice", 1)], 80⟩), ("p2", ⟨[("bob", 2)], 60⟩)], false⟩
      [⟨"alice", "UG"⟩, ⟨"bob", "UG"⟩] artC4
      [("p1", ⟨[("alice", 1)], 80⟩)] [] "p2" ⟨[("bob", 2)], 60⟩
      [("Questions", 50)] (by decide) rfl (by decide) (by decide) none false,
   get_marks_bad_category_set
      ⟨[("p1", ⟨[("alice", 1)], 80⟩), ("p2", ⟨[("bob", 2)], 60⟩)], false⟩
      [⟨"alice", "UG"⟩, ⟨"bob", "UG"⟩] artC4
      [("p1", ⟨[("alice", 1)], 80⟩)] [] "p2" ⟨[("bob", 2)], 60⟩
      [("Questions", 50)] (by decide) rfl (by decide) (by decide) none true⟩

theorem writeRow_mem_of_ne (t : List Row) (label name : String) (pres : ℚ)
    (pm : List (String × ℚ)) (contrib : ℚ) (r : Row)
    (hr : r ∈ t) (hne : r.id ≠ label) :
    r ∈ writeRow t label name pres pm contrib := by
  unfold writeRow
  by_cases hany : t.any (fun rw => rw.id == label) = true
  · rw [if_pos hany]
    exact List.mem_map.mpr ⟨r, hr, by rw [if_neg hne]⟩
  · rw [if_neg hany]
    exact List.mem_append_left _ hr

theorem foldl_writeRow_mem_of_ne (name : String) (pres : ℚ)
    (pm : List (String × ℚ)) (r : Row) :
    ∀ (ms : List (String × ℚ)) (t : List Row), r ∈ t →
      (∀ mc ∈ ms, r.id ≠ mc.1) →
      r ∈ ms.foldl (fun acc mc => writeRow acc mc.1 name pres pm mc.2) t := by
  intro ms
  induction ms with
  | nil => intro t hr _; simpa using hr
  | cons mc rest ih =>
    intro t hr hne
    rw [List.foldl_cons]
    exact ih _ (writeRow_mem_of_ne t mc.1 name pres pm mc.2 r hr
        (hne mc (List.mem_cons_self _ _)))
      (fun mc' hmc' => hne mc' (List.mem_cons_of_mem _ hmc'))

theorem writeProject_mem_of_ne (t : List Row) (name : String) (pc : PConfig)
    (pm : List (String × ℚ)) (r : Row) (hr : r ∈ t)
    (hne : ∀ mc ∈ pc.members, r.id ≠ mc.1) :
    r ∈ writeProject t name pc pm :=
  foldl_writeRow_mem_of_ne name pc.presentation pm r pc.members t hr hne

/-- A row whose label is written by no processed project survives the
whole loop unchanged (in particular it stays in the table). -/
theorem getMarksLoop_mem_of_untouched
    (artifacts : String → Option (List (String × ℚ)))
    (allow : Bool) (r : Row) :
    ∀ (ps : List (String × PConfig)) (t : List Row) (sk : List String)
      (t' : List Row) (sk' : List String),
    getMarksLoop artifacts allow t sk ps = .ok (t', sk') →
    r ∈ t →
    (∀ p ∈ ps, artifacts p.1 = none ∨ ∀ mc ∈ p.2.members, r.id ≠ mc.1) →
    r ∈ t' := by
  intro ps
  induction ps with
  | nil =>
    intro t sk t' sk' hok hr _
    simp only [getMarksLoop, Except.ok.injEq, Prod.mk.injEq] at hok
    rw [← hok.1]
    exact hr
  | cons hd rest ih =>
    intro t sk t' sk' hok hr hno
    obtain ⟨name, pc⟩ := hd
    rcases hart : artifacts name with _ | pm
    · simp only [getMarksLoop, hart] at hok
      cases allow with
      | false => simp at hok
      | true =>
        rw [if_pos rfl] at hok
        exact ih t (sk ++ [name]) t' sk' hok hr
          (fun p hp => hno p (List.mem_cons_of_mem _ hp))
    · simp only [getMarksLoop, hart] at hok
      by_cases hkeys : (pm.map Prod.fst).toFinset = MARK_CATEGORIES.toFinset
      · rw [if_pos hkeys] at hok
        refine ih (writeProject t name pc pm) sk t' sk' hok ?_
          (fun p hp => hno p (List.mem_cons_of_mem _ hp))
        rcases hno (name, pc) (List.mem_cons_self _ _) with hn | hne
        · rw [hart] at hn; exact absurd hn (by simp)
        · exact writeProject_mem_of_ne t name pc pm r hr hne
      · rw [if_neg hkeys] at hok
        exact absurd hok (by simp)

/-- C3 (amended): with the tolerate-missing flag on and exactly one
project's artifact absent, `get_marks` skips exactly that project
(reporting it), continues through every remaining project and succeeds;
the skipped project's members are *not* removed from the final table —
they remain as rows that simply received no mark values (presentation
unset, aggregate `NaN`). -/
theorem get_marks_skip_keeps_members (cfg : Config) (roster : List Student)
    (artifacts : String → Option (List (String × ℚ)))
    (pre post : List (String × PConfig)) (name : String) (pc : PConfig)
    (hsplit : cfg.projects = pre ++ (name, pc) :: post)
    (hart : artifacts name = none)
    (hrest : ∀ p ∈ pre ++ post, foundGoodB artifacts p = true) :
    ∃ t, get_marks cfg roster artifacts none true = .ok (t, [name]) ∧
      ∀ m w, (m, w) ∈ pc.members →
        (∀ p ∈ pre ++ post, ∀ mc ∈ p.2.members, m ≠ mc.1) →
        m ∈ roster.map Student.id →
        ∃ r ∈ t, r.id = m ∧ r.presentation = none ∧ r.aggregate = none := by
  have hpre : ∀ p ∈ pre, foundGoodB artifacts p = true :=
    fun p hp => hrest p (List.mem_append_left _ hp)
  have hpost : ∀ p ∈ post, foundGoodB artifacts p = true :=
    fun p hp => hrest p (List.mem_append_right _ hp)
  obtain ⟨t1, ht1⟩ := getMarksLoop_foundGood_prefix artifacts true pre hpre
    (roster.map initRow)
  have hloopstep : getMarksLoop artifacts true (roster.map initRow) []
      cfg.projects = getMarksLoop artifacts true t1 [name] post := by
    rw [hsplit, ht1 [] ((name, pc) :: post)]
    simp only [getMarksLoop, hart, if_true]
    rw [List.nil_append]
  obtain ⟨t2, ht2⟩ := getMarksLoop_foundGood_prefix artifacts true post hpost t1
  have hok : getMarksLoop artifacts true t1 [name] post =
      .ok (t2, [name]) := by
    have h := ht2 [name] []
    rw [List.append_nil] at h
    rw [h]
    simp [getMarksLoop]
  refine ⟨t2.map (finishRow cfg.roundFinal), ?_, ?_⟩
  · unfold get_marks
    rw [hloopstep, hok]
  · intro m w hmw hno hmem
    rcases List.mem_map.mp hmem with ⟨s, hs, hsid⟩
    have hr2 : initRow s ∈ t2 := by
      refine getMarksLoop_mem_of_untouched artifacts true (initRow s)
        cfg.projects (roster.map initRow) [] t2 [name]
        (hloopstep.trans hok) (List.mem_map.mpr ⟨s, hs, rfl⟩) ?_
      intro p hp
      rw [hsplit] at hp
      rcases List.mem_append.mp hp with h1 | h1
      · right
        intro mc hmc
        have := hno p (List.mem_append_left _ h1) mc hmc
        rw [show (initRow s).id = s.id from rfl, hsid]
        exact this
      · rcases List.mem_cons.mp h1 with h2 | h2
        · left; rw [h2]; exact hart
        · right
          intro mc hmc
          have := hno p (List.mem_append_right _ h2) mc hmc
          rw [show (initRow s).id = s.id from rfl, hsid]
          exact this
    refine ⟨finishRow cfg.roundFinal (initRow s),
      List.mem_map.mpr ⟨initRow s, hr2, rfl⟩, ?_, rfl, rfl⟩
    rw [show (finishRow cfg.roundFinal (initRow s)).id = s.id from rfl]
    exact hsid

def rosterAB : List Student := [⟨"alice", "UG"⟩, ⟨"bob", "UG"⟩]

def cfgC3 : Config :=
  ⟨[("p1", ⟨[("alice", 1)], 80⟩), ("p2", ⟨[("bob", 2)], 60⟩)], false⟩

def artC3 : String → Option (List (String × ℚ)) :=
  fun n => if n = "p1" then some pmAll70 else none

/-- C3 counterexample: `p2`'s artifact is absent and tolerated, yet its
member `bob` is *not* excluded from the final table: the returned table
still has rows `["alice", "bob"]` (with `p2` reported skipped),
contradicting the claim that the skipped project's members are excluded
from the final output. -/
theorem get_marks_skip_counterexample :
    artC3 "p2" = none ∧
    okIds (get_marks cfgC3 rosterAB artC3 none true) =
      some (["alice", "bob"], ["p2"]) := by
  refine ⟨rfl, by with_unfolding_all rfl⟩

/-- C3 witness: the amended claim at the concrete two-project world:
the run succeeds skipping exactly `p2`, and `bob` remains a markless
row of the final table. -/
theorem get_marks_skip_keeps_members_witness :
    ∃ t, get_marks cfgC3 rosterAB artC3 none true = .ok (t, ["p2"]) ∧
      ∀ m w, (m, w) ∈ (⟨[("bob", 2)], 60⟩ : PConfig).members →
        (∀ p ∈ [("p1", (⟨[("alice", 1)], 80⟩ : PConfig))] ++
            ([] : List (String × PConfig)), ∀ mc ∈ p.2.members, m ≠ mc.1) →
        m ∈ rosterAB.map Student.id →
        ∃ r ∈ t, r.id = m ∧ r.presentation = none ∧ r.aggregate = none :=
  get_marks_skip_keeps_members cfgC3 rosterAB artC3
    [("p1", ⟨[("alice", 1)], 80⟩)] [] "p2" ⟨[("bob", 2)], 60⟩
    (by decide) rfl (by decide)

/-! ## Cohort partitioning (`split_projects`) -/

/-- `type_lists[t]`: the login-column values of the class-list rows whose
`UGPG` equals `t`. -/
def typeMembers (roster : List Student) (t : String) : List String :=
  (roster.filter (fun s => s.ugpg == t)).map Student.id

/-- `types = set(ug_pg)`: the distinct cohort labels of the roster. -/
def typesOf (roster : List Student) : List String :=
  (roster.map Student.ugpg).dedup

/-- `member_counts[name] = len(members)`: the number of member logins of
the project of that name (0 for a name that is no project). -/
def countOf (cfg : Config) (name : String) : Nat :=
  match cfg.projects.lookup name with
  | some pc => (member_logins pc).card
  | none => 0

/-- The per-type append loop: a project joins type `t`'s list when its
member logins intersect `type_lists[t]`; configuration order is kept. -/
def rawList (cfg : Config) (roster : List Student) (t : String) :
    List String :=
  (cfg.projects.filter (fun p =>
    decide ((member_logins p.2 ∩ (typeMembers roster t).toFinset) ≠ ∅))).map
    Prod.fst

/-- Insertion step of `sorted(...)` on strings. -/
def insertStr (x : String) : List String → List String
  | [] => [x]
  | y :: ys => if x < y then x :: y :: ys else y :: insertStr x ys

/-- `sorted(...)` on strings (lexicographic, as in Python). -/
def sortStrings : List String → List String
  | [] => []
  | x :: xs => insertStr x (sortStrings xs)

/-- The final per-type project list: `PGT` is first replaced by
`set(project_lists['PGT']).difference(project_lists['UG'])`, then every
list is sorted. -/
def cohortList (cfg : Config) (roster : List Student) (t : String) :
    List String :=
  if t = "PGT" then
    sortStrings (((rawList cfg roster "PGT").filter
      (fun n => decide (n ∉ rawList cfg roster "UG"))).dedup)
  else
    sortStrings (rawList cfg roster t)

/-- One printed report line of `split_projects`: the cohort label, its
project list, `len(plist)` and `n_students`. -/
structure ReportLine where
  type : String
  projects : List String
  nProjects : Nat
  nStudents : Nat
deriving DecidableEq

/-- `split_projects(config)`: build the per-type lists, apply the PGT/UG
precedence rule, sort, and report, per type, the number of projects and
the member-slot total.  The Python code reads `project_lists['PGT']` and
`project_lists['UG']` unconditionally, so a roster lacking either label
raises a `KeyError`, modelled as `none`. -/
def split_projects (cfg : Config) (roster : List Student) :
    Option (List ReportLine) :=
  if "PGT" ∈ typesOf roster ∧ "UG" ∈ typesOf roster then
    some ((typesOf roster).map (fun t =>
      ⟨t, cohortList cfg roster t, (cohortList cfg roster t).length,
        ((cohortList cfg roster t).map (countOf cfg)).sum⟩))
  else none

theorem mem_insertStr (x y : String) :
    ∀ l : List String, (y ∈ insertStr x l ↔ y = x ∨ y ∈ l) := by
  intro l
  induction l with
  | nil => simp [insertStr]
  | cons z zs ih =>
    simp only [insertStr]
    by_cases hxy : x < z
    · rw [if_pos hxy]; simp
    · rw [if_neg hxy]
      simp only [List.mem_cons, ih]
      tauto

theorem mem_sortStrings (y : String) :
    ∀ l : List String, (y ∈ sortStrings l ↔ y ∈ l) := by
  intro l
  induction l with
  | nil => simp [sortStrings]
  | cons z zs ih =>
    simp only [sortStrings, mem_insertStr, List.mem_cons, ih]

theorem mem_rawList (cfg : Config) (roster : List Student) (t name : String) :
    name ∈ rawList cfg roster t ↔ ∃ pc, (name, pc) ∈ cfg.projects ∧
      (member_logins pc ∩ (typeMembers roster t).toFinset) ≠ ∅ := by
  unfold rawList
  rw [List.mem_map]
  constructor
  · rintro ⟨p, hp, hname⟩
    rw [List.mem_filter] at hp
    refine ⟨p.2, ?_, of_decide_eq_true hp.2⟩
    rw [← hname]
    exact hp.1
  · rintro ⟨pc, hmem, hne⟩
    exact ⟨(name, pc), List.mem_filter.mpr ⟨hmem, decide_eq_true hne⟩, rfl⟩

/-- C8: whenever `split_projects` succeeds, a project name is in a
non-PGT cohort line exactly when some project of that name has a member
of that cohort type; it is in the PGT line exactly when it has a PGT
member and is *not* already in the UG list (so a mixed project appears
only under UG); and each line reports the number of its projects and the
member-slot total summed over those projects (per-project login counts,
not deduplicated across projects). -/
theorem split_projects_spec (cfg : Config) (roster : List Student)
    (rep : List ReportLine)
    (hrep : split_projects cfg roster = some rep) :
    (∀ line ∈ rep, ∀ name : String,
      (line.type ≠ "PGT" →
        (name ∈ line.projects ↔ ∃ pc, (name, pc) ∈ cfg.projects ∧
          (member_logins pc ∩ (typeMembers roster line.type).toFinset) ≠ ∅)) ∧
      (line.type = "PGT" →
        (name ∈ line.projects ↔
          ((∃ pc, (name, pc) ∈ cfg.projects ∧
              (member_logins pc ∩ (typeMembers roster "PGT").toFinset) ≠ ∅) ∧
            ¬ ∃ pc, (name, pc) ∈ cfg.projects ∧
              (member_logins pc ∩ (typeMembers roster "UG").toFinset) ≠ ∅)))) ∧
    (∀ line ∈ rep, line.nProjects = line.projects.length ∧
      line.nStudents = (line.projects.map (countOf cfg)).sum) := by
  unfold split_projects at hrep
  by_cases hcond : "PGT" ∈ typesOf roster ∧ "UG" ∈ typesOf roster
  · rw [if_pos hcond] at hrep
    have hrep2 := Option.some.inj hrep
    constructor
    · intro line hline name
      rw [← hrep2] at hline
      rcases List.mem_map.mp hline with ⟨t, _, hlineEq⟩
      have hty : line.type = t := by rw [← hlineEq]
      have hpr : line.projects = cohortList cfg roster t := by rw [← hlineEq]
      constructor
      · intro hne
        rw [hty] at hne
        rw [hpr, hty]
        unfold cohortList
        rw [if_neg hne, mem_sortStrings, mem_rawList]
      · intro heq
        rw [hty] at heq
        rw [hpr, heq]
        unfold cohortList
        rw [if_pos rfl, mem_sortStrings, List.mem_dedup, List.mem_filter]
        simp only [decide_eq_true_eq]
        rw [mem_rawList, mem_rawList]
    · intro line hline
      rw [← hrep2] at hline
      rcases List.mem_map.mp hline with ⟨t, _, hlineEq⟩
      constructor
      · rw [← hlineEq]
      · rw [← hlineEq]
  · rw [if_neg hcond] at hrep
    exact absurd hrep (by simp)

def rosterMix : List Student :=
  [⟨"alice", "UG"⟩, ⟨"bob", "PGT"⟩, ⟨"carol", "PGT"⟩]

def cfgMix : Config :=
  ⟨[("p1", ⟨[("alice", 1), ("bob", 2)], 80⟩), ("p2", ⟨[("carol", 3)], 60⟩)],
   false⟩

/-- C8 witness: project `p1` is mixed (UG alice, PGT bob) and `p2` is
all-PGT; the report lists `p1` only under UG and `p2` under PGT, with
slot totals 2 and 1. -/
theorem split_projects_spec_witness :
    (∀ line ∈ [(⟨"UG", ["p1"], 1, 2⟩ : ReportLine), ⟨"PGT", ["p2"], 1, 1⟩],
      ∀ name : String,
      (line.type ≠ "PGT" →
        (name ∈ line.projects ↔ ∃ pc, (name, pc) ∈ cfgMix.projects ∧
          (member_logins pc ∩ (typeMembers rosterMix line.type).toFinset) ≠ ∅)) ∧
      (line.type = "PGT" →
        (name ∈ line.projects ↔
          ((∃ pc, (name, pc) ∈ cfgMix.projects ∧
              (member_logins pc ∩ (typeMembers rosterMix "PGT").toFinset) ≠ ∅) ∧
            ¬ ∃ pc, (name, pc) ∈ cfgMix.projects ∧
              (member_logins pc ∩ (typeMembers rosterMix "UG").toFinset) ≠ ∅)))) ∧
    (∀ line ∈ [(⟨"UG", ["p1"], 1, 2⟩ : ReportLine), ⟨"PGT", ["p2"], 1, 1⟩],
      line.nProjects = line.projects.length ∧
      line.nStudents = (line.projects.map (countOf cfgMix)).sum) :=
  split_projects_spec cfgMix rosterMix
    [⟨"UG", ["p1"], 1, 2⟩, ⟨"PGT", ["p2"], 1, 1⟩] (by decide)

/-! ## Validation key versus write key (`member_logins` vs `get_marks`) -/

theorem takeWhile_ne_self_of_mem (p : Char → Bool) :
    ∀ (l : List Char) (c : Char), c ∈ l → p c = false →
      l.takeWhile p ≠ l := by
  intro l
  induction l with
  | nil => intro c hc; exact absurd hc (List.not_mem_nil c)
  | cons a rest ih =>
    intro c hc hpc
    rcases hpa : p a with _ | _
    · simp only [List.takeWhile_cons, hpa]
      intro hcontra
      exact List.cons_ne_nil a rest hcontra.symm
    · simp only [List.takeWhile_cons, hpa]
      intro hcontra
      have htail : rest.takeWhile p = rest := (List.cons.injEq _ _ _ _ ▸ hcontra).2
      rcases List.mem_cons.mp hc with h1 | h1
      · rw [h1] at hpc; rw [hpc] at hpa; exact Bool.false_ne_true hpa
      · exact ih c h1 hpc htail

theorem login_ne_of_at (m : String) (hat : '@' ∈ m.data) : login m ≠ m := by
  intro heq
  have hdata : m.data.takeWhile (fun c => decide (c ≠ '@')) = m.data :=
    congrArg String.data heq
  exact takeWhile_ne_self_of_mem _ m.data '@' hat (by simp) hdata

/-- C10: for a member string `m` containing `'@'`, the key used by
`check_config` (and `split_projects`) through `member_logins` is the
truncated `login m`, a different string from `m`; a roster containing
both keys shows the divergence end to end: `check_config` accepts the
configuration and counts `login m` as assigned (reporting the row labelled
`m` as missing), while `get_marks` writes Presentation, category marks and
Contribution under the full string `m`, leaving the row labelled
`login m` without marks. -/
theorem member_key_mismatch (m : String) (hat : '@' ∈ m.data)
    (w pres : ℚ) (name : String) (pm : List (String × ℚ))
    (hkeys : (pm.map Prod.fst).toFinset = MARK_CATEGORIES.toFinset)
    (u1 u2 : String) :
    login m ≠ m ∧
    member_logins ⟨[(m, w)], pres⟩ = {login m} ∧
    check_config ⟨[(name, ⟨[(m, w)], pres⟩)], false⟩
      [⟨login m, u1⟩, ⟨m, u2⟩] = .ok {m} ∧
    ∃ t, get_marks ⟨[(name, ⟨[(m, w)], pres⟩)], false⟩
        [⟨login m, u1⟩, ⟨m, u2⟩] (fun _ => some pm) none false = .ok (t, []) ∧
      (t.filter (fun r => r.id == m)).map Row.presentation = [some pres] ∧
      (t.filter (fun r => r.id == m)).map Row.contribution = [some w] ∧
      (t.filter (fun r => r.id == login m)).map Row.presentation = [none] := by
  have hne : login m ≠ m := login_ne_of_at m hat
  have hml : member_logins ⟨[(m, w)], pres⟩ = {login m} := by
    simp [member_logins]
  have hknown : knownOf [⟨login m, u1⟩, ⟨m, u2⟩] = insert (login m) {m} := by
    simp [knownOf]
  have hbeq1 : (login m == m) = false := beq_eq_false_iff_ne.mpr hne
  have hbeq2 : (m == login m) = false := beq_eq_false_iff_ne.mpr (Ne.symm hne)
  refine ⟨hne, hml, ?_, ?_⟩
  · unfold check_config check_config_run
    have hloop : checkLoop (insert (login m) {m}) ∅
        [(name, ⟨[(m, w)], pres⟩)] = .ok {login m} := by
      simp only [checkLoop, hml]
      rw [if_neg (by simp), if_neg (by simp)]
      simp [checkLoop]
    rw [hknown, hloop]
    have hmiss : insert (login m) {m} \ {login m} = ({m} : Finset String) := by
      ext x
      simp only [Finset.mem_sdiff, Finset.mem_insert, Finset.mem_singleton]
      constructor
      · rintro ⟨h1 | h1, h2⟩
        · exact absurd h1 h2
        · exact h1
      · intro hx
        exact ⟨Or.inr hx, by rw [hx]; exact Ne.symm hne⟩
    simp [hmiss]
  · refine ⟨[finishRow false (initRow ⟨login m, u1⟩),
      finishRow false (setMarks name pres pm w (initRow ⟨m, u2⟩))],
      ?_, ?_, ?_, ?_⟩
    · unfold get_marks
      have hloop : getMarksLoop (fun _ => some pm) false
          (List.map initRow [⟨login m, u1⟩, ⟨m, u2⟩]) []
          [(name, ⟨[(m, w)], pres⟩)] =
          .ok ([initRow ⟨login m, u1⟩,
            setMarks name pres pm w (initRow ⟨m, u2⟩)], []) := by
        simp only [getMarksLoop, List.map_cons, List.map_nil]
        rw [if_pos hkeys]
        simp [writeProject, writeRow, hbeq1, hne, initRow, getMarksLoop]
      rw [hloop]
      rfl
    · simp [List.filter, finishRow, initRow, setMarks, hbeq1]
    · simp [List.filter, finishRow, initRow, setMarks, hbeq1]
    · simp [List.filter, finishRow, initRow, setMarks, hbeq2]

/-- C10 witness: the concrete member string `alice@uni.edu` is validated
as `alice` but written as `alice@uni.edu`. -/
theorem member_key_mismatch_witness :
    login "alice@uni.edu" ≠ "alice@uni.edu" ∧
    member_logins ⟨[("alice@uni.edu", 5)], 80⟩ = {login "alice@uni.edu"} ∧
    check_config ⟨[("p", ⟨[("alice@uni.edu", 5)], 80⟩)], false⟩
      [⟨login "alice@uni.edu", "UG"⟩, ⟨"alice@uni.edu", "UG"⟩] =
        .ok {"alice@uni.edu"} ∧
    ∃ t, get_marks ⟨[("p", ⟨[("alice@uni.edu", 5)], 80⟩)], false⟩
        [⟨login "alice@uni.edu", "UG"⟩, ⟨"alice@uni.edu", "UG"⟩]
        (fun _ => some pmAll70) none false = .ok (t, []) ∧
      (t.filter (fun r => r.id == "alice@uni.edu")).map Row.presentation =
        [some 80] ∧
      (t.filter (fun r => r.id == "alice@uni.edu")).map Row.contribution =
        [some 5] ∧
      (t.filter (fun r => r.id == login "alice@uni.edu")).map
        Row.presentation = [none] :=
  member_key_mismatch "alice@uni.edu" (by decide) 5 80 "p" pmAll70
    (by decide) "UG" "UG"

end CheckProjects
